import Mathlib

/-!
Verification development for the Sklearn_NestedCV radiomics toolkit.

The Python sources are embedded shallowly:
* numeric data is modelled over `ℚ` (the exercised code paths use only
  rational arithmetic: rank statistics, Kruskal-Wallis statistics with tie
  correction, minima, comparisons);
* feature matrices are lists of rows (`Mat`), mirroring 2-D `numpy` arrays;
* fallible Python code is modelled in the `Except PyErr` monad, with the
  error kinds of the specification's error taxonomy kept distinct from
  exceptions that escape from third-party libraries.
-/

/- Batteries marks the `Rat` arithmetic operations `@[irreducible]`, which
blocks evaluation of concrete rational computations inside `decide`;
restore reducibility for this file so that closed statements about the
embedded programs can be settled by evaluation. -/
attribute [local semireducible] Rat.add Rat.mul Rat.sub Rat.inv

/-- Error kinds.  `invalidInput` models the `ValueError`/`TypeError`
validations raised by this repository's own code (the specification's
InvalidInput); `notFitted` models sklearn's `NotFittedError`;
`libraryError` models an exception raised inside a third-party library
(e.g. pandas) rather than by a validation in this repository;
`runtimeFault` models incidental Python faults (`KeyError`, `IndexError`,
`min`/`[0]` on an empty sequence). -/
inductive PyErr where
  | invalidInput
  | notFitted
  | libraryError
  | runtimeFault
deriving DecidableEq, Repr

/-- A 2-D numeric table (rows = subjects, columns = features), the shallow
embedding of a `numpy` 2-D array / pandas DataFrame body. -/
abbrev Mat := List (List ℚ)

/-- A list of lists corresponds to a 2-D `numpy` array exactly when it is a
nonempty rectangle (`np.array([])` is 1-D, ragged rows give a 1-D object
array). Mirrors the `len(X.shape) != 2` validation. -/
def isTwoD (X : Mat) : Bool :=
  !X.isEmpty && X.all (fun row => row.length = (X.headD []).length)

/-- Column `i` of a matrix (`X[:, i]`); mirrors numpy column indexing on a
rectangular array. -/
def matCol (X : Mat) (i : ℕ) : List ℚ :=
  X.map (fun row => row.getD i 0)

/-- Number of feature columns (`X.shape[1]`). -/
def nFeatures (X : Mat) : ℕ := (X.headD []).length

/-- Number of rows (`X.shape[0]`). -/
def nSamples (X : Mat) : ℕ := X.length

/-- Ordered insertion, the building block of `pySorted`. -/
def insSorted [LinearOrder α] (x : α) : List α → List α
  | [] => [x]
  | y :: ys => if x ≤ y then x :: y :: ys else y :: insSorted x ys

/-- Python's `sorted` (ascending).  Any sorting algorithm has the same
graph on a linear order, so insertion sort is an exact model. -/
def pySorted [LinearOrder α] (l : List α) : List α :=
  l.foldr insSorted []

/-- `list.index(x)`: index of the first occurrence (ℚ version). -/
def pyIndex (l : List ℚ) (x : ℚ) : ℕ :=
  l.findIdx (fun y => y = x)

/-- Python slice `l[:k]` for an `int` k (negative k counts from the end). -/
def pySliceTo (k : ℤ) (l : List α) : List α :=
  if 0 ≤ k then l.take k.toNat else l.take (l.length - (-k).toNat)

/-- `np.unique`: the sorted list of distinct values. -/
def uniqueSorted [LinearOrder α] (l : List α) : List α :=
  (pySorted l).dedup

/-- `len(np.unique(l))` for any value type: the number of distinct values. -/
def nDistinct [DecidableEq α] (l : List α) : ℕ :=
  l.dedup.length

/-- `min` of a nonempty Python sequence, seeded with the head
(`l.min()` / `min(l)`). -/
def pyMin (l : List ℚ) : ℚ :=
  l.foldl min (l.headD 0)

instance {ε α : Type} [DecidableEq ε] [DecidableEq α] : DecidableEq (Except ε α) := fun a b =>
  match a, b with
  | .ok x, .ok y =>
    if h : x = y then isTrue (by rw [h]) else isFalse (by intro hc; cases hc; exact h rfl)
  | .error x, .error y =>
    if h : x = y then isTrue (by rw [h]) else isFalse (by intro hc; cases hc; exact h rfl)
  | .ok _, .error _ => isFalse (by intro hc; cases hc)
  | .error _, .ok _ => isFalse (by intro hc; cases hc)

/-- Effectful map over a list in the `Except` monad (the list/array
comprehensions of the Python code, where the body may raise). -/
def collectE (f : α → Except ε β) : List α → Except ε (List β)
  | [] => .ok []
  | a :: as => do
    let b ← f a
    let bs ← collectE f as
    pure (b :: bs)

/-! ### Rank statistics (`scipy.stats.rankdata`, `scipy.stats.kruskal`) -/

/-- `scipy.stats.rankdata(l)` with the default `method='average'`: each
element receives the mean of the positions it would occupy in a sorted
arrangement, i.e. (number of strictly smaller values) + (ties + 1)/2. -/
def rankdataAverage (l : List ℚ) : List ℚ :=
  l.map (fun x =>
    (l.countP (fun y => decide (y < x)) : ℚ)
      + ((l.countP (fun y => decide (y = x)) : ℚ) + 1) / 2)

/-- The strict order underlying a stable argsort: position `j` comes
before position `i` when its value is smaller, or equal with a smaller
index. -/
def ordPrec (l : List ℚ) (j i : ℕ) : Prop :=
  l.getD j 0 < l.getD i 0 ∨ (l.getD j 0 = l.getD i 0 ∧ j < i)

instance (l : List ℚ) (j i : ℕ) : Decidable (ordPrec l j i) := by
  unfold ordPrec; infer_instance

/-- The rank `rankdata(l, method='ordinal')` assigns to position `i`. -/
def ordinalRank (l : List ℚ) (i : ℕ) : ℕ :=
  1 + ((Finset.range l.length).filter (fun j => ordPrec l j i)).card

/-- `scipy.stats.rankdata(l, method='ordinal')`: ranks 1..n assigned by a
stable argsort (ties broken by position). -/
def rankdataOrdinal (l : List ℚ) : List ℕ :=
  (List.range l.length).map (ordinalRank l)

/-- The tie term `sum(t**3 - t)` of `scipy.stats.tiecorrect`. -/
def tieTerm (pooled : List ℚ) : ℚ :=
  ((uniqueSorted pooled).map (fun v =>
    ((pooled.countP (fun y => decide (y = v)) : ℚ)) ^ 3
      - (pooled.countP (fun y => decide (y = v)) : ℚ))).sum

/-- Split a list into consecutive chunks of the given sizes (how
`scipy.stats.kruskal` slices the pooled rank array back into groups). -/
def splitSizes : List ℕ → List ℚ → List (List ℚ)
  | [], _ => []
  | sz :: rest, l => l.take sz :: splitSizes rest (l.drop sz)

/-- `scipy.stats.kruskal(*groups)`: the Kruskal-Wallis H statistic with
tie correction.  Errors: fewer than two groups, and a tie correction of
zero (`All numbers are identical`), are `ValueError`s in scipy; an empty
group would make the statistic undefined (`0/0`) and is modelled as an
error as well (never exercised by the callers embedded here). -/
def kruskal (groups : List (List ℚ)) : Except PyErr ℚ :=
  if groups.length < 2 then .error .invalidInput
  else if groups.any (·.isEmpty) then .error .invalidInput
  else
    let pooled := groups.flatten
    let n : ℚ := pooled.length
    let ranked := rankdataAverage pooled
    let T : ℚ := 1 - tieTerm pooled / (n ^ 3 - n)
    if T = 0 then .error .invalidInput
    else
      let sums := (splitSizes (groups.map List.length) ranked).map List.sum
      let ssbn : ℚ :=
        ((sums.zip (groups.map (fun g => (g.length : ℚ)))).map
          (fun p => p.1 ^ 2 / p.2)).sum
      .ok ((12 / (n * (n + 1)) * ssbn - 3 * (n + 1)) / T)

/-- `FilterFeatureSelection.wlcx_score`: per feature, the Kruskal-Wallis
test statistic of that feature's values grouped by the label classes
(`X[:, i][y == lab]` for each `lab` in `np.unique(y)`). -/
def wlcx_score (X : Mat) (y : List ℚ) : Except PyErr (List ℚ) :=
  collectE
    (fun i =>
      kruskal ((uniqueSorted y).map (fun lab =>
        ((y.zip (matCol X i)).filter (fun p => decide (p.1 = lab))).map (·.2))))
    (List.range (nFeatures X))

/-! ### Feature Name Normalizer (`format_feature_name`) -/

/-- Fueled worker for `replaceAll`.  Each recursive call shortens the
list, so fuel equal to the list length is always sufficient for a
nonempty pattern; the fuel only makes the recursion structural so that
the kernel can evaluate it. -/
def replaceAllGo (sub repl : List Char) : ℕ → List Char → List Char
  | _, [] => []
  | 0, l => l
  | fuel + 1, c :: rest =>
    if sub.isPrefixOf (c :: rest) then
      repl ++ replaceAllGo sub repl fuel ((c :: rest).drop sub.length)
    else
      c :: replaceAllGo sub repl fuel rest

/-- Leftmost, non-overlapping replacement of every occurrence of `sub`
(nonempty at every call site) by `repl`: Python's
`str.replace(sub, repl)` on the character list. -/
def replaceAll (sub repl l : List Char) : List Char :=
  replaceAllGo sub repl l.length l

/-- Fueled worker for `splitOnSub` (same fuel discipline as
`replaceAllGo`). -/
def splitOnSubGo (sub : List Char) : ℕ → List Char → List (List Char)
  | _, [] => [[]]
  | 0, l => [l]
  | fuel + 1, c :: rest =>
    if sub.isPrefixOf (c :: rest) then
      [] :: splitOnSubGo sub fuel ((c :: rest).drop sub.length)
    else
      match splitOnSubGo sub fuel rest with
      | h :: t => (c :: h) :: t
      | [] => [[c]]

/-- Python's `str.split(sub)` for a nonempty separator: the list of pieces
between the leftmost non-overlapping occurrences of `sub`. -/
def splitOnSub (sub l : List Char) : List (List Char) :=
  splitOnSubGo sub l.length l

/-- Python's `sub in s` for a nonempty `sub`: true iff splitting produced
more than one piece. -/
def containsSub (s sub : List Char) : Bool :=
  (splitOnSub sub s).length > 1

/-- The rewriting pipeline of `format_feature_name` up to (and including)
the `matrix` abbreviation step and the discarded `replace('__', '_')`;
everything before the final trailing-underscore handling. -/
def format_feature_name_core (fn : List Char) : List Char :=
  let dels : List (List Char) :=
    ["original_".data]
      ++ (if "TBR".data.isSuffixOf fn then ["TBR".data] else [])
      ++ (if containsSub fn "ratio".data then ["_ratio".data] else [])
      ++ (if containsSub fn "merged".data then ["_.3D._merged._".data] else ["_.3D._".data])
  let fn1 := dels.foldl (fun acc sub => replaceAll sub [] acc) fn
  let fn2 := replaceAll ['.'] ['_'] fn1
  if containsSub fn2 "matrix".data then
    let parts := splitOnSub "matrix".data fn2
    let matrixName := parts.headD []
    let abbrevName :=
      if containsSub matrixName "occurrence".data then "GLCM".data
      else if containsSub matrixName "Run_length".data then "GLRLM".data
      else if containsSub matrixName "Size_zone".data then "GLSZM".data
      else if containsSub matrixName "Neighbourhood_grey_tone_difference".data then "NGTDM".data
      else if containsSub matrixName "Neighbouring_grey_level_dependence".data then "NGLDM".data
      else matrixName
    -- '_'.join([matrix_name, feature_name.split('matrix')[1]])
    abbrevName ++ ['_'] ++ parts.getD 1 []
  else fn2
  -- the source also computes feature_name.replace('__', '_') here and
  -- discards the result (a no-op kept faithfully: nothing to model)

/-- `format_feature_name`.  The final step reads `feature_name[-1]`, which
raises `IndexError` on an empty string; that failure is modelled as
`none`. -/
def format_feature_name (feature_name : String) : Option String :=
  let fn := format_feature_name_core feature_name.data
  if fn.isEmpty then none
  else if fn.getLast? = some '_' then some (String.mk fn.dropLast)
  else some (String.mk fn)

/-! ### Feature Selection Framework (`feature_selection.py`) -/

/-- The configuration fields of `FilterFeatureSelection` that the `fit`
path reads.  The scoring/ranking method and the rank-aggregation method
are passed to `fit` as functions (the source's callable case; for the
built-in names, `_get_fs_func` resolves the name and forces
`ranking_done`/`score_indicator_lower` as recorded in
`scoring_methods`). `has_ranking_aggregation` is `ranking_aggregation is
not None`. -/
structure FSConfig where
  bootstrap : Bool
  n_bsamples : ℕ
  n_selected_features : Option ℤ
  has_ranking_aggregation : Bool
  ranking_done : Bool
  score_indicator_lower : Option Bool
deriving DecidableEq, Repr

/-- The state a successful `FilterFeatureSelection.fit` stores on the
estimator: the feature count and `accepted_features_index_`. -/
structure FitResult where
  n_features : ℕ
  accepted_features_index_ : List ℕ
deriving DecidableEq, Repr

/-- `X[sample_index, :]`: the rows of `X` selected by a bootstrap draw. -/
def rowsAt (X : Mat) (idxs : List ℕ) : Mat :=
  idxs.map (fun i => X.getD i [])

/-- `y[sample_index]`. -/
def valsAt (y : List ℚ) (idxs : List ℕ) : List ℚ :=
  idxs.map (fun i => y.getD i 0)

/-- `[list(ranks).index(r) for r in sorted(ranks)]`: feature indices
listed from best (lowest) rank value to worst; a duplicated rank value
repeats the index of its first occurrence. -/
def pySortedIndex (ranks : List ℚ) : List ℕ :=
  (pySorted ranks).map (pyIndex ranks)

/-- The global-ranking computation inside `FilterFeatureSelection.fit`
(bootstrap aggregation or a single direct scoring/ranking pass).
`fs_func` is the resolved scoring/ranking function, `aggregation_method`
the resolved
rank-aggregation function, and `bsamples_index` stands for the value of
`_get_bsamples_index(y)` — the seeded `sklearn.utils.resample` draws are
a random-number-generator detail modelled as an oracle input: a list of
`n_bsamples` with-replacement row-index draws, each containing every
observed class.  The `numbers.Integral` type test of
`_check_n_selected_feature` is enforced by the `Option ℤ` typing. -/
def FilterFeatureSelection.computeRanks (cfg : FSConfig)
    (fs_func : Mat → List ℚ → Except PyErr (List ℚ))
    (aggregation_method : List (List ℚ) → ℤ → List ℚ)
    (bsamples_index : List (List ℕ))
    (k : ℤ) (X : Mat) (y : List ℚ) : Except PyErr (List ℚ) :=
  if cfg.bootstrap then
    if ¬ cfg.has_ranking_aggregation then .error .invalidInput
    else
      match
        (if cfg.ranking_done then
          collectE (fun s => fs_func (rowsAt X s) (valsAt y s)) bsamples_index
        else if cfg.score_indicator_lower = none then .error .invalidInput
        else
          match collectE (fun s => fs_func (rowsAt X s) (valsAt y s)) bsamples_index with
          | .error e => .error e
          | .ok scores =>
            let scores :=
              if cfg.score_indicator_lower = some false then
                scores.map (List.map (fun q => -q))
              else scores
            .ok (scores.map rankdataAverage)) with
      | .error e => .error e
      | .ok bootstrap_ranks => .ok (aggregation_method bootstrap_ranks k)
  else
    if cfg.ranking_done then fs_func X y
    else if cfg.score_indicator_lower = none then .error .invalidInput
    else
      match fs_func X y with
      | .error e => .error e
      | .ok score =>
        let score :=
          if cfg.score_indicator_lower = some false then score.map (fun q => -q)
          else score
        .ok ((rankdataOrdinal score).map (fun r : ℕ => (r : ℚ)))

/-- `FilterFeatureSelection.fit` proper: the `_check_X_Y` validations,
the `_check_n_selected_feature` None-replacement, the global ranking
(`FilterFeatureSelection.computeRanks`), and the retention of
`ranking_index[:n_selected_features]`. -/
def FilterFeatureSelection.fit (cfg : FSConfig)
    (fs_func : Mat → List ℚ → Except PyErr (List ℚ))
    (aggregation_method : List (List ℚ) → ℤ → List ℚ)
    (bsamples_index : List (List ℕ))
    (X : Mat) (y : List ℚ) : Except PyErr FitResult :=
  if ¬ isTwoD X then .error .invalidInput
  else if nDistinct y ≤ 1 then .error .invalidInput
  else
    -- _check_n_selected_feature: None is replaced by the feature count
    let k : ℤ := cfg.n_selected_features.getD ((nFeatures X : ℤ))
    match FilterFeatureSelection.computeRanks cfg fs_func aggregation_method
        bsamples_index k X y with
    | .error e => .error e
    | .ok ranks =>
      .ok { n_features := nFeatures X,
            accepted_features_index_ := pySliceTo k (pySortedIndex ranks) }

/-- `FilterFeatureSelection._get_support_mask`: a boolean vector with
`mask[accepted_features_index_] = True` (numpy would fault on an
out-of-range index; the theorems establish the indices are in range on
the claimed paths). -/
def FilterFeatureSelection.get_support_mask (st : FitResult) : List Bool :=
  (List.range st.n_features).map (fun i => decide (i ∈ st.accepted_features_index_))

/-- `FeatureSelection.transform`.  After the `X` check the source runs
`if check_is_fitted(self): ... else: raise NotFittedError(...)`.
sklearn's `check_is_fitted` raises `NotFittedError` itself on an unfitted
estimator and returns `None` on a fitted one — and `None` is falsy, so
the `else` branch raises `NotFittedError` in that case too: both branches
fail. -/
def FeatureSelection.transform (st : Option FitResult) (X : Mat) : Except PyErr Mat := do
  if ¬ isTwoD X then throw .invalidInput
  match st with
  | none => throw .notFitted
  | some _ => throw .notFitted

/-- The behaviour the specification ascribes to `transform` (stated from
the spec, for comparison with `FeatureSelection.transform`): the input
matrix restricted to the columns of the support mask. -/
def transform_as_specified (st : FitResult) (X : Mat) : Mat :=
  X.map (fun row =>
    ((row.zip (FilterFeatureSelection.get_support_mask st)).filter (fun p => p.2)).map (·.1))

/-- `FeatureSelection.fit_transform`: `self.fit(X, y).transform(X)`. -/
def FeatureSelection.fit_transform (cfg : FSConfig)
    (fs_func : Mat → List ℚ → Except PyErr (List ℚ))
    (aggregation_method : List (List ℚ) → ℤ → List ℚ)
    (bsamples_index : List (List ℕ))
    (X : Mat) (y : List ℚ) : Except PyErr Mat := do
  let st ← FilterFeatureSelection.fit cfg fs_func aggregation_method bsamples_index X y
  FeatureSelection.transform (some st) X

/-! ### Batch-effect harmonization (`data_harmonization.py`) -/

/-- `neuroComBat` at the default `covariate=None`, `num_covs=None` (so
`cat_covs = []`); the argument type coercions are enforced by the typing.
After the batch validation the source builds
`pd.DataFrame(batch, columns='batch')`: pandas requires a collection for
`columns` and raises `TypeError("Index(...) must be called with a
collection of some kind, 'batch' was passed")`, so everything after that
line — including the reference-batch validation — is unreachable. -/
def neuroComBat (X : Mat) (batch : List String) (ref_batch : Option String) :
    Except PyErr Mat := do
  if ¬ isTwoD X then throw .invalidInput
  if nDistinct batch ≤ 1 then throw .invalidInput
  -- batch = pd.DataFrame(batch, columns='batch') : TypeError inside pandas
  throw .libraryError
  -- unreachable remainder, kept from the source:
  if ref_batch.isSome ∧ ¬ batch.dedup.contains (ref_batch.getD "") then
    throw .invalidInput
  pure X  -- stands for the external neuroCombat correction

/-- The groups the multi-group (> 2 batches) branch of
`before_after_comparison` feeds to the rank test for feature `i`:
`[data[key][:, i][batch == i] for _ in labels]` — the comparison uses the
feature index `i`, not the group label, and ignores the loop variable, so
the same subset is repeated once per label. -/
def bac_code_groups (Xtab : Mat) (batch : List ℤ) (i : ℕ) : List (List ℚ) :=
  (uniqueSorted batch).map (fun _ =>
    ((batch.zip (matCol Xtab i)).filter (fun p => decide (p.1 = (i : ℤ)))).map (·.2))

/-- The grouping the claim describes (stated from the spec, for
comparison with `bac_code_groups`): feature `i`'s values partitioned by
the batch label values, one group per distinct batch value. -/
def bac_batchlabel_groups (Xtab : Mat) (batch : List ℤ) (i : ℕ) : List (List ℚ) :=
  (uniqueSorted batch).map (fun lab =>
    ((batch.zip (matCol Xtab i)).filter (fun p => decide (p.1 = lab))).map (·.2))

/-- The p-value source of the multi-group branch: the Kruskal-Wallis test
applied to the groups the code builds. -/
def before_after_multigroup_stat (Xtab : Mat) (batch : List ℤ) (i : ℕ) : Except PyErr ℚ :=
  kruskal (bac_code_groups Xtab batch i)

/-! ### Dataset loader (`get_dataset`) -/

/-- `pd.concat([A, B], axis=1)` for row-aligned tables. -/
def concatCols (A B : Mat) : Mat :=
  List.zipWith (· ++ ·) A B

/-- `get_dataset`.  Modelled from the spec: the harmonization helpers
`MComBat` and `ComBat` that the source calls are defined nowhere in the
repository; per the specification they are the external batch-correction
algorithm in reference-batch mode (fixed reference `'Vereos'`) and in
plain mode, consuming a feature table and producing a harmonized table.
They are taken here as table-to-table arguments (already closed over the
batch vector and optional covariates, which the source threads through
unchanged); the spreadsheets `dataset_dic[...]` point to are passed as
already-loaded tables. -/
def get_dataset (MComBat ComBat : Mat → Mat) (dataset : String)
    (tabS tabD tabOR : Mat) (harmonization : String) : Except PyErr (String × Mat) :=
  if dataset = "S+D" then
    let stat := if harmonization = "MComBat" then MComBat tabS else ComBat tabS
    .ok ("S+D", concatCols stat tabD)
  else if dataset = "S+D+OR" then
    let stat_text := concatCols tabS tabOR
    let stat_text := if harmonization = "MComBat" then MComBat stat_text else ComBat stat_text
    .ok ("S+D+OR", concatCols stat_text tabD)
  else if dataset = "S" then
    let stat := if harmonization = "MComBat" then MComBat tabS else ComBat tabS
    .ok ("S", stat)
  else if dataset = "S+OR" then
    let stat_text := concatCols tabS tabOR
    let stat_text := if harmonization = "MComBat" then MComBat stat_text else ComBat stat_text
    .ok ("S+OR", stat_text)
  else .error .invalidInput

/-! ### Local intensity peak extractor (`local_intensity_features.py`) -/

/-- The argument validation and selector dispatch at the head of
`local_intensity_features`: targets outside the exact list
`['min', 'max', 'minimum', 'maximum']` raise `ValueError`; otherwise the
result records whether the minimum (`true`) or the maximum (`false`)
statistic is extracted.  The image processing that follows delegates to
SimpleITK/scipy convolutions and is outside the claims. -/
def local_intensity_features_target (target : String) : Except PyErr Bool :=
  if ¬ (target ∈ (["min", "max", "minimum", "maximum"] : List String)) then
    .error .invalidInput
  else
    .ok (target ∈ (["min", "minimum"] : List String))

/-! ### Inner-loop tie-break (`get_best_index`) -/

/-- A hyperparameter value: `none` is Python's `None`
("select all features"), `some q` a numeric value. -/
abbrev PVal := Option ℚ

/-- A hyperparameter configuration, modelled as an association list in
the (single, shared) key order of the search space. -/
abbrev PyDict := List (String × PVal)

/-- `d.keys()`. -/
def dictKeys (p : PyDict) : List String := p.map (·.1)

/-- `d[k]` (`KeyError` when absent). -/
def dictGet (p : PyDict) (k : String) : Except PyErr PVal :=
  match p.find? (fun kv => decide (kv.1 = k)) with
  | some kv => .ok kv.2
  | none => .error .runtimeFault

/-- The fields of `cv_results` that `get_best_index` reads. -/
structure CvResults where
  rank_test_score : List ℕ
  params : List PyDict
deriving DecidableEq, Repr

/-- The selected-feature-count hyperparameter name. -/
def fsKey : String := "FeatureSelection__n_selected_features"

/-- `min` of a nonempty list of naturals (`np.min`). -/
def pyMinNat (l : List ℕ) : ℕ := l.foldl min (l.headD 0)

/-- `lookup` on a configuration (`d.get(k)`-like, total). -/
def lookupV (p : PyDict) (key : String) : Option PVal :=
  (p.find? (fun kv => decide (kv.1 = key))).map (·.2)

/-- `np.array(cv_results['params'])[best_rank_mask]`: the configurations
tied for the best (minimal) rank. -/
def tiedParams (cv : CvResults) : List PyDict :=
  ((cv.rank_test_score.zip cv.params).filter
    (fun p => decide (p.1 = pyMinNat cv.rank_test_score))).map (·.2)

/-- The fixed complexity-hyperparameter priority list of
`get_best_index`. -/
def paramsOfInterest : List String :=
  ["classifier__C", "classifier__base_estimator__C", "classifier__max_features",
   "classifier__alpha"]

/-- The tied configurations' selected-feature-count values (stated for
the amended claim; coincides with the code's `fs_params` when every tied
configuration carries the key). -/
def tiedFsVals (cv : CvResults) : List PVal :=
  (tiedParams cv).filterMap (fun p => lookupV p fsKey)

/-- The selected-feature-count value `get_best_index` narrows to (stated
for the amended claim): `None` when any tied configuration has `None`,
otherwise the minimum of the explicit counts. -/
def bestFsOf (cv : CvResults) : PVal :=
  if (tiedFsVals cv).contains none then none
  else some (pyMin (tiedFsVals cv).reduceOption)

/-- The selected-feature-count narrowing of `get_best_index`.  Faithful
point worth noting: when any tied configuration carries `None`,
`best_fs = None` is kept, so "select all" is preferred over every
explicit count. -/
def get_best_step2 (tied : List PyDict) (params_name : List String) :
    Except PyErr (List PyDict) :=
  if fsKey ∈ params_name then
    match collectE (fun p => dictGet p fsKey) tied with
    | .error e => .error e
    | .ok fs_params =>
      let best_fs : PVal :=
        if fs_params.contains none then none
        else some (pyMin fs_params.reduceOption)
      .ok (((tied.zip fs_params).filter
        (fun p => decide (p.2 = best_fs))).map (·.1))
  else .ok tied

/-- The classifier-complexity narrowing of `get_best_index`
(`param_chosen` is `classifier_params_names ∩ params_of_interest` in
order; the dead `params_of_interest != 'classifier__alpha'` comparison
makes this always the minimising branch). -/
def get_best_step3 (tied2 : List PyDict) (param_chosen : List String) :
    Except PyErr (List PyDict) :=
  match param_chosen with
  | [] => .ok tied2
  | key :: _ =>
    match collectE (fun p => dictGet p key) tied2 with
    | .error e => .error e
    | .ok vals =>
      match collectE
          (fun v => match v with
            | some q => Except.ok q
            | none => Except.error PyErr.runtimeFault) vals with
      | .error e => .error e
      | .ok qs =>
        let m := pyMin qs
        .ok (((tied2.zip vals).filter
          (fun p => decide (p.2 = some m))).map (·.1))

/-- `get_best_index` — the refit tie-break policy: tied-for-best-rank
configurations, selected-feature-count narrowing (`get_best_step2`),
classifier-complexity narrowing (`get_best_step3`), then the original
index of the first remaining configuration.  Incidental Python faults
(`[0]`/`min` on empty, `KeyError`, comparing `None` with a float) are
`runtimeFault`. -/
def get_best_index (cv : CvResults) : Except PyErr ℕ :=
  if cv.rank_test_score.isEmpty then .error .runtimeFault
  else
    match tiedParams cv with
    | [] => .error .runtimeFault
    | first :: rest =>
      let params_name := dictKeys first
      match get_best_step2 (first :: rest) params_name with
      | .error e => .error e
      | .ok tied2 =>
        let param_chosen :=
          (params_name.filter (fun s => containsSub s.data "classifier".data)).filter
            (fun s => decide (s ∈ paramsOfInterest))
        match get_best_step3 tied2 param_chosen with
        | .error e => .error e
        | .ok tied3 =>
          match tied3 with
          | [] => .error .runtimeFault
          | best_params :: _ =>
            match cv.params.findIdx? (fun p => decide (p = best_params)) with
            | some i => .ok i
            | none => .error .runtimeFault

/-! ### Concrete instances used by the claims -/

/-- A 6-subject, 10-feature matrix (2 balanced classes under
`wlcxExampleY`): every column holds the values 1..6, distributed so that
the per-feature Kruskal-Wallis statistics are 1/21, 27/7, 3/7, 7/3, 1/21,
25/21, 1/21, 1/21, 1/21, 1/21 — features 1, 3 and 5 are strictly the
three best separated. -/
def wlcxExampleX : Mat :=
  [[1, 1, 1, 1, 1, 1, 1, 1, 1, 1],
   [3, 2, 2, 2, 3, 2, 3, 3, 3, 3],
   [6, 3, 6, 4, 6, 5, 6, 6, 6, 6],
   [2, 4, 3, 3, 2, 3, 2, 2, 2, 2],
   [4, 5, 4, 5, 4, 4, 4, 4, 4, 4],
   [5, 6, 5, 6, 5, 6, 5, 5, 5, 5]]

/-- Balanced 2-class labels for `wlcxExampleX`. -/
def wlcxExampleY : List ℚ := [0, 0, 0, 1, 1, 1]

/-- The per-feature Kruskal-Wallis statistics of `wlcxExampleX` /
`wlcxExampleY` (verified below by evaluation). -/
def wlcxExampleScores : List ℚ :=
  [1/21, 27/7, 3/7, 7/3, 1/21, 25/21, 1/21, 1/21, 1/21, 1/21]

/-- The configuration `FilterFeatureSelection(method='wlcx_score',
n_selected_features=3)` after `_get_fs_func` resolves the built-in name:
`ranking_done = False` and `score_indicator_lower = False` (from the
`scoring_methods` catalog), `bootstrap` off at its default, default
`n_bsamples = 100`, `ranking_aggregation = None`. -/
def wlcxConfig : FSConfig :=
  { bootstrap := false, n_bsamples := 100, n_selected_features := some 3,
    has_ranking_aggregation := false, ranking_done := false,
    score_indicator_lower := some false }

/-- A single-feature table for the `before_after_comparison` claim: one
column holding 1..6. -/
def bacExampleX : Mat := [[1], [2], [3], [4], [5], [6]]

/-- A 3-valued batch vector (three scanners) for `bacExampleX`. -/
def bacExampleBatch : List ℤ := [0, 0, 1, 1, 2, 2]

/-! ### Supporting lemmas -/

theorem except_bind_ok_iff {ε α β : Type} {x : Except ε α} {f : α → Except ε β} {b : β} :
    x >>= f = .ok b ↔ ∃ a, x = .ok a ∧ f a = .ok b := by
  cases x <;> simp [Bind.bind, Except.bind]

theorem collectE_ok_length {α β ε : Type} {f : α → Except ε β} {l : List α} {out : List β}
    (h : collectE f l = .ok out) : out.length = l.length := by
  induction l generalizing out with
  | nil =>
    simp only [collectE] at h
    cases h
    rfl
  | cons a as ih =>
    simp only [collectE, bind_assoc] at h
    rw [except_bind_ok_iff] at h
    obtain ⟨b, _, h⟩ := h
    rw [except_bind_ok_iff] at h
    obtain ⟨bs, hbs, h⟩ := h
    have hout : out = b :: bs := by
      cases h
      rfl
    subst hout
    simp [ih hbs]

theorem collectE_ok_mem {α β ε : Type} {f : α → Except ε β} {l : List α} {out : List β}
    (h : collectE f l = .ok out) : ∀ b ∈ out, ∃ a ∈ l, f a = .ok b := by
  induction l generalizing out with
  | nil =>
    simp only [collectE] at h
    cases h
    simp
  | cons a as ih =>
    simp only [collectE, bind_assoc] at h
    rw [except_bind_ok_iff] at h
    obtain ⟨b, hb, h⟩ := h
    rw [except_bind_ok_iff] at h
    obtain ⟨bs, hbs, h⟩ := h
    have hout : out = b :: bs := by
      cases h
      rfl
    subst hout
    intro c hc
    rcases List.mem_cons.mp hc with rfl | hc
    · exact ⟨a, List.mem_cons_self a as, hb⟩
    · obtain ⟨a', ha', hfa'⟩ := ih hbs c hc
      exact ⟨a', List.mem_cons_of_mem a ha', hfa'⟩

theorem ordPrec_irrefl (l : List ℚ) (i : ℕ) : ¬ ordPrec l i i := by
  simp [ordPrec]

theorem ordPrec_trans (l : List ℚ) {i j m : ℕ}
    (h1 : ordPrec l i j) (h2 : ordPrec l j m) : ordPrec l i m := by
  rcases h1 with h1 | ⟨e1, lt1⟩ <;> rcases h2 with h2 | ⟨e2, lt2⟩
  · exact Or.inl (h1.trans h2)
  · exact Or.inl (e2 ▸ h1)
  · exact Or.inl (e1 ▸ h2)
  · exact Or.inr ⟨e1.trans e2, lt1.trans lt2⟩

theorem ordPrec_total (l : List ℚ) {i j : ℕ} (h : i ≠ j) :
    ordPrec l i j ∨ ordPrec l j i := by
  rcases lt_trichotomy (l.getD i 0) (l.getD j 0) with hv | hv | hv
  · exact Or.inl (Or.inl hv)
  · rcases Nat.lt_or_ge i j with hij | hij
    · exact Or.inl (Or.inr ⟨hv, hij⟩)
    · exact Or.inr (Or.inr ⟨hv.symm, lt_of_le_of_ne hij (Ne.symm h)⟩)
  · exact Or.inr (Or.inl hv)

theorem ordinalRank_lt_of_ordPrec (l : List ℚ) {i j : ℕ} (hi : i < l.length)
    (hprec : ordPrec l i j) : ordinalRank l i < ordinalRank l j := by
  unfold ordinalRank
  have hss : (Finset.range l.length).filter (fun m => ordPrec l m i) ⊂
      (Finset.range l.length).filter (fun m => ordPrec l m j) := by
    rw [Finset.ssubset_iff_of_subset]
    · exact ⟨i, Finset.mem_filter.mpr ⟨Finset.mem_range.mpr hi, hprec⟩,
        fun hmem => ordPrec_irrefl l i (Finset.mem_filter.mp hmem).2⟩
    · intro m hm
      have hm' := Finset.mem_filter.mp hm
      exact Finset.mem_filter.mpr ⟨hm'.1, ordPrec_trans l hm'.2 hprec⟩
  have := Finset.card_lt_card hss
  omega

theorem ordinalRank_ne (l : List ℚ) {i j : ℕ} (hi : i < l.length) (hj : j < l.length)
    (hij : i ≠ j) : ordinalRank l i ≠ ordinalRank l j := by
  rcases ordPrec_total l hij with h | h
  · exact Nat.ne_of_lt (ordinalRank_lt_of_ordPrec l hi h)
  · exact (Nat.ne_of_lt (ordinalRank_lt_of_ordPrec l hj h)).symm

theorem ordinalRank_pos (l : List ℚ) (i : ℕ) : 1 ≤ ordinalRank l i := by
  unfold ordinalRank
  omega

theorem ordinalRank_le_length (l : List ℚ) {i : ℕ} (hi : i < l.length) :
    ordinalRank l i ≤ l.length := by
  unfold ordinalRank
  have hsub : (Finset.range l.length).filter (fun m => ordPrec l m i) ⊆
      (Finset.range l.length).erase i := by
    intro m hm
    have hm' := Finset.mem_filter.mp hm
    refine Finset.mem_erase.mpr ⟨?_, hm'.1⟩
    intro hmi
    exact ordPrec_irrefl l i (hmi ▸ hm'.2)
  have hcard := Finset.card_le_card hsub
  have herase : ((Finset.range l.length).erase i).card = l.length - 1 := by
    rw [Finset.card_erase_of_mem (Finset.mem_range.mpr hi), Finset.card_range]
  omega

theorem rankdataOrdinal_length (l : List ℚ) : (rankdataOrdinal l).length = l.length := by
  simp [rankdataOrdinal]

theorem rankdataOrdinal_nodup (l : List ℚ) : (rankdataOrdinal l).Nodup := by
  unfold rankdataOrdinal
  refine List.Nodup.map_on ?_ (List.nodup_range _)
  intro i hi j hj hfeq
  by_contra hne
  exact ordinalRank_ne l (List.mem_range.mp hi) (List.mem_range.mp hj) hne hfeq

theorem rankdataOrdinal_mem_bounds {l : List ℚ} {r : ℕ} (h : r ∈ rankdataOrdinal l) :
    1 ≤ r ∧ r ≤ l.length := by
  unfold rankdataOrdinal at h
  obtain ⟨i, hi, rfl⟩ := List.mem_map.mp h
  exact ⟨ordinalRank_pos l i, ordinalRank_le_length l (List.mem_range.mp hi)⟩

/-- The ordinal ranks are a permutation of `1..n` (claim C10's stated
rationale). -/
theorem rankdataOrdinal_perm_range (l : List ℚ) :
    (rankdataOrdinal l).Perm (List.range' 1 l.length) := by
  have hsub : rankdataOrdinal l ⊆ List.range' 1 l.length := by
    intro r hr
    have := rankdataOrdinal_mem_bounds hr
    rw [List.mem_range'_1]
    omega
  have hsp := List.subperm_of_subset (rankdataOrdinal_nodup l) hsub
  exact hsp.perm_of_length_le (by simp [rankdataOrdinal_length, List.length_range'])

theorem insSorted_perm [LinearOrder α] (x : α) (l : List α) :
    (insSorted x l).Perm (x :: l) := by
  induction l with
  | nil => exact List.Perm.refl _
  | cons y ys ih =>
    unfold insSorted
    split
    · exact List.Perm.refl _
    · exact (ih.cons y).trans (List.Perm.swap x y ys)

theorem pySorted_perm [LinearOrder α] (l : List α) : (pySorted l).Perm l := by
  induction l with
  | nil => exact List.Perm.refl _
  | cons x xs ih =>
    have : pySorted (x :: xs) = insSorted x (pySorted xs) := rfl
    rw [this]
    exact (insSorted_perm x (pySorted xs)).trans (ih.cons x)

theorem pyIndex_lt_length {l : List ℚ} {x : ℚ} (h : x ∈ l) : pyIndex l x < l.length := by
  induction l with
  | nil => cases h
  | cons a as ih =>
    by_cases hax : a = x
    · simp [pyIndex, List.findIdx_cons, hax]
    · have hx : x ∈ as := by
        rcases List.mem_cons.mp h with h' | h'
        · exact absurd h'.symm hax
        · exact h'
      simp only [pyIndex, List.findIdx_cons]
      rw [show decide (a = x) = false from by simp [hax]]
      simp only [cond_false, List.length_cons]
      exact Nat.succ_lt_succ (ih hx)

theorem pyIndex_getD {l : List ℚ} {x : ℚ} (h : x ∈ l) : l.getD (pyIndex l x) 0 = x := by
  induction l with
  | nil => cases h
  | cons a as ih =>
    by_cases hax : a = x
    · simp [pyIndex, List.findIdx_cons, hax]
    · have hx : x ∈ as := by
        rcases List.mem_cons.mp h with h' | h'
        · exact absurd h'.symm hax
        · exact h'
      simp only [pyIndex, List.findIdx_cons]
      rw [show decide (a = x) = false from by simp [hax]]
      simp only [cond_false]
      simpa [pyIndex] using ih hx

theorem pyIndex_injOn {l : List ℚ} {x y : ℚ} (hx : x ∈ l) (hy : y ∈ l)
    (hxy : pyIndex l x = pyIndex l y) : x = y := by
  rw [← pyIndex_getD hx, ← pyIndex_getD hy, hxy]

theorem pySortedIndex_length (ranks : List ℚ) :
    (pySortedIndex ranks).length = ranks.length := by
  simp [pySortedIndex, (pySorted_perm ranks).length_eq]

theorem pySortedIndex_nodup {ranks : List ℚ} (h : ranks.Nodup) :
    (pySortedIndex ranks).Nodup := by
  unfold pySortedIndex
  have hs : (pySorted ranks).Nodup := ((pySorted_perm ranks).nodup_iff).mpr h
  refine List.Nodup.map_on ?_ hs
  intro a ha b hb hab
  exact pyIndex_injOn ((pySorted_perm ranks).mem_iff.mp ha)
    ((pySorted_perm ranks).mem_iff.mp hb) hab

theorem pySortedIndex_mem_lt {ranks : List ℚ} {i : ℕ} (h : i ∈ pySortedIndex ranks) :
    i < ranks.length := by
  unfold pySortedIndex at h
  obtain ⟨r, hr, rfl⟩ := List.mem_map.mp h
  exact pyIndex_lt_length ((pySorted_perm ranks).mem_iff.mp hr)

theorem get_support_mask_length (st : FitResult) :
    (FilterFeatureSelection.get_support_mask st).length = st.n_features := by
  simp [FilterFeatureSelection.get_support_mask]

theorem get_support_mask_count_true (st : FitResult)
    (hnd : st.accepted_features_index_.Nodup)
    (hlt : ∀ i ∈ st.accepted_features_index_, i < st.n_features) :
    (FilterFeatureSelection.get_support_mask st).count true
      = st.accepted_features_index_.length := by
  unfold FilterFeatureSelection.get_support_mask
  rw [List.count_eq_countP, List.countP_map]
  have hpred : ((fun b => b == true) ∘ fun i => decide (i ∈ st.accepted_features_index_))
      = fun i => decide (i ∈ st.accepted_features_index_) := by
    funext i
    simp
  rw [hpred, List.countP_eq_length_filter]
  set acc := st.accepted_features_index_ with hacc
  have hfil_nodup : ((List.range st.n_features).filter
      (fun i => decide (i ∈ acc))).Nodup := (List.nodup_range _).filter _
  have hsub1 : (List.range st.n_features).filter (fun i => decide (i ∈ acc)) ⊆ acc := by
    intro i hi
    have := List.of_mem_filter hi
    simpa using this
  have hsub2 : acc ⊆ (List.range st.n_features).filter (fun i => decide (i ∈ acc)) := by
    intro i hi
    refine List.mem_filter.mpr ⟨List.mem_range.mpr (hlt i hi), by simpa using hi⟩
  have hsp1 := List.subperm_of_subset hfil_nodup hsub1
  have hsp2 := List.subperm_of_subset hnd hsub2
  exact Nat.le_antisymm hsp1.length_le hsp2.length_le

theorem rankdataAverage_length (l : List ℚ) : (rankdataAverage l).length = l.length := by
  simp [rankdataAverage]

/-- On the rank-assigning paths claim C10 describes, a successful
`computeRanks` returns a duplicate-free rank vector with one entry per
feature. -/
theorem computeRanks_ok_props (cfg : FSConfig)
    (fs_func : Mat → List ℚ → Except PyErr (List ℚ))
    (core : List (List ℚ) → ℤ → List ℚ)
    (agg : List (List ℚ) → ℤ → List ℚ)
    (bsamples : List (List ℕ)) (k : ℤ) (X : Mat) (y : List ℚ) (ranks : List ℚ)
    (hdirect : cfg.bootstrap = false → cfg.ranking_done = false)
    (hagg : cfg.bootstrap = true →
      agg = fun R m => (rankdataOrdinal (core R m)).map (fun r : ℕ => (r : ℚ)))
    (hcorelen : ∀ R m, (∀ r ∈ R, r.length = nFeatures X) →
      (core R m).length = nFeatures X)
    (hlen : ∀ s, fs_func X y = .ok s → s.length = nFeatures X)
    (hlenB : ∀ smp ∈ bsamples, ∀ s, fs_func (rowsAt X smp) (valsAt y smp) = .ok s →
      s.length = nFeatures X)
    (heq : FilterFeatureSelection.computeRanks cfg fs_func agg bsamples k X y = .ok ranks) :
    ranks.Nodup ∧ ranks.length = nFeatures X := by
  unfold FilterFeatureSelection.computeRanks at heq
  by_cases hb : cfg.bootstrap = true
  · rw [if_pos hb] at heq
    split at heq
    · exact absurd heq (by simp)
    · split at heq
      · exact absurd heq (by simp)
      · rename_i R hinner
        injection heq with heq
        rw [hagg hb] at heq
        subst heq
        have hrows : ∀ r ∈ R, r.length = nFeatures X := by
          by_cases hrd : cfg.ranking_done = true
          · rw [if_pos hrd] at hinner
            intro r hr
            obtain ⟨smp, hsmp, hfs⟩ := collectE_ok_mem hinner r hr
            exact hlenB smp hsmp r hfs
          · rw [if_neg hrd] at hinner
            split at hinner
            · exact absurd hinner (by simp)
            · split at hinner
              · exact absurd hinner (by simp)
              · rename_i scores hcoll
                injection hinner with hinner
                subst hinner
                intro r hr
                obtain ⟨s', hs', rfl⟩ := List.mem_map.mp hr
                rw [rankdataAverage_length]
                split at hs'
                · obtain ⟨s, hs, rfl⟩ := List.mem_map.mp hs'
                  obtain ⟨smp, hsmp, hfs⟩ := collectE_ok_mem hcoll s hs
                  simpa using hlenB smp hsmp s hfs
                · obtain ⟨smp, hsmp, hfs⟩ := collectE_ok_mem hcoll s' hs'
                  exact hlenB smp hsmp s' hfs
        constructor
        · exact List.Nodup.map (fun a b hab => by exact_mod_cast hab)
            (rankdataOrdinal_nodup _)
        · simp [rankdataOrdinal_length, hcorelen R k hrows]
  · rw [if_neg hb] at heq
    have hrd := hdirect (by simpa using hb)
    rw [if_neg (by simp [hrd])] at heq
    split at heq
    · exact absurd heq (by simp)
    · split at heq
      · exact absurd heq (by simp)
      · rename_i score hscore
        injection heq with heq
        subst heq
        have hslen : (if cfg.score_indicator_lower = some false
            then score.map (fun q => -q) else score).length = nFeatures X := by
          split
          · simpa using hlen score hscore
          · exact hlen score hscore
        constructor
        · exact List.Nodup.map (fun a b hab => by exact_mod_cast hab)
            (rankdataOrdinal_nodup _)
        · simp [rankdataOrdinal_length, hslen]

/-- C10: after `FilterFeatureSelection.fit` succeeds with an explicit
retain count `1 ≤ k ≤ n_features`, on the rank-assigning paths the claim
describes — a direct scoring pass (whose ranks come from
`rankdata(..., method='ordinal')`), or bootstrap with an aggregation
that finishes with ordinal `rankdata` over some per-feature core
statistic, as every built-in aggregation does — the ordinal ranks form a
permutation of 1..n, the accepted index set holds exactly `k` distinct
in-range feature indices, and the support mask is a boolean vector of
length `n_features` with exactly `k` `true` entries.  The length
hypotheses record the scoring contract (one score per feature). -/
theorem C10_support_mask_exactly_k (cfg : FSConfig)
    (fs_func : Mat → List ℚ → Except PyErr (List ℚ))
    (core : List (List ℚ) → ℤ → List ℚ)
    (agg : List (List ℚ) → ℤ → List ℚ)
    (bsamples : List (List ℕ)) (X : Mat) (y : List ℚ) (k : ℤ) (st : FitResult)
    (hk : cfg.n_selected_features = some k)
    (hk1 : 1 ≤ k) (hk2 : k ≤ (nFeatures X : ℤ))
    (hdirect : cfg.bootstrap = false → cfg.ranking_done = false)
    (hagg : cfg.bootstrap = true →
      agg = fun R m => (rankdataOrdinal (core R m)).map (fun r : ℕ => (r : ℚ)))
    (hcorelen : ∀ R m, (∀ r ∈ R, r.length = nFeatures X) →
      (core R m).length = nFeatures X)
    (hlen : ∀ s, fs_func X y = .ok s → s.length = nFeatures X)
    (hlenB : ∀ smp ∈ bsamples, ∀ s, fs_func (rowsAt X smp) (valsAt y smp) = .ok s →
      s.length = nFeatures X)
    (hfit : FilterFeatureSelection.fit cfg fs_func agg bsamples X y = .ok st) :
    (∀ l : List ℚ, (rankdataOrdinal l).Perm (List.range' 1 l.length))
    ∧ st.n_features = nFeatures X
    ∧ st.accepted_features_index_.Nodup
    ∧ st.accepted_features_index_.length = k.toNat
    ∧ (∀ i ∈ st.accepted_features_index_, i < nFeatures X)
    ∧ (FilterFeatureSelection.get_support_mask st).length = nFeatures X
    ∧ (FilterFeatureSelection.get_support_mask st).count true = k.toNat := by
  simp only [FilterFeatureSelection.fit, hk, Option.getD_some] at hfit
  split at hfit
  · exact absurd hfit (by simp)
  · split at hfit
    · exact absurd hfit (by simp)
    · split at hfit
      · exact absurd hfit (by simp)
      · rename_i ranks hranks
        obtain ⟨hnd, hrl⟩ := computeRanks_ok_props cfg fs_func core agg bsamples k X y
          ranks hdirect hagg hcorelen hlen hlenB hranks
        injection hfit with hst
        have hk0 : (0 : ℤ) ≤ k := by omega
        have hacc : st.accepted_features_index_ = (pySortedIndex ranks).take k.toNat := by
          rw [← hst]
          simp [pySliceTo, hk0]
        have hnf : st.n_features = nFeatures X := by
          rw [← hst]
        have hknat : k.toNat ≤ ranks.length := by
          rw [hrl]
          omega
        have haccnodup : st.accepted_features_index_.Nodup := by
          rw [hacc]
          exact (pySortedIndex_nodup hnd).sublist (List.take_sublist _ _)
        have hacclen : st.accepted_features_index_.length = k.toNat := by
          rw [hacc, List.length_take, pySortedIndex_length]
          omega
        have haccmem : ∀ i ∈ st.accepted_features_index_, i < nFeatures X := by
          intro i hi
          rw [hacc] at hi
          have := pySortedIndex_mem_lt (List.take_subset _ _ hi)
          omega
        refine ⟨rankdataOrdinal_perm_range, hnf, haccnodup, hacclen, haccmem, ?_, ?_⟩
        · rw [get_support_mask_length, hnf]
        · rw [get_support_mask_count_true st haccnodup
            (fun i hi => hnf ▸ haccmem i hi), hacclen]

/-- C10 witness: a concrete non-bootstrap fit (custom scorer returning
the first row as scores, `score_indicator_lower=True`, `k = 2` of 3
features) with every hypothesis discharged at the input. -/
theorem C10_support_mask_exactly_k_sample :
    (∀ l : List ℚ, (rankdataOrdinal l).Perm (List.range' 1 l.length))
    ∧ (FitResult.mk 3 [1, 2]).n_features = nFeatures [[3, 1, 2], [0, 0, 0]]
    ∧ (FitResult.mk 3 [1, 2]).accepted_features_index_.Nodup
    ∧ (FitResult.mk 3 [1, 2]).accepted_features_index_.length = (2 : ℤ).toNat
    ∧ (∀ i ∈ (FitResult.mk 3 [1, 2]).accepted_features_index_,
        i < nFeatures [[3, 1, 2], [0, 0, 0]])
    ∧ (FilterFeatureSelection.get_support_mask (FitResult.mk 3 [1, 2])).length
        = nFeatures [[3, 1, 2], [0, 0, 0]]
    ∧ (FilterFeatureSelection.get_support_mask (FitResult.mk 3 [1, 2])).count true
        = (2 : ℤ).toNat :=
  C10_support_mask_exactly_k
    ⟨false, 100, some 2, false, false, some true⟩
    (fun M _ => .ok (M.headD []))
    (fun _ _ => [0, 0, 0]) (fun _ _ => []) []
    [[3, 1, 2], [0, 0, 0]] [0, 1] 2 (FitResult.mk 3 [1, 2])
    rfl (by decide) (by decide)
    (fun _ => rfl)
    (fun h => nomatch h)
    (fun _ _ _ => rfl)
    (fun s h => by cases h; rfl)
    (fun smp h => nomatch h)
    (by decide)

theorem foldl_min_mem [LinearOrder α] (l : List α) (x : α) : l.foldl min x ∈ x :: l := by
  induction l generalizing x with
  | nil => simp
  | cons y ys ih =>
    simp only [List.foldl_cons]
    rcases List.mem_cons.mp (ih (min x y)) with h' | h'
    · rw [h']
      rcases min_choice x y with hm | hm <;> rw [hm] <;> simp
    · simp [h']

theorem foldl_min_le [LinearOrder α] (l : List α) (x : α) :
    ∀ a ∈ x :: l, l.foldl min x ≤ a := by
  induction l generalizing x with
  | nil => simp
  | cons y ys ih =>
    intro a ha
    have h := ih (min x y)
    rcases List.mem_cons.mp ha with rfl | ha'
    · exact le_trans (h _ (List.mem_cons_self _ _)) (min_le_left _ _)
    · rcases List.mem_cons.mp ha' with rfl | ha''
      · exact le_trans (h _ (List.mem_cons_self _ _)) (min_le_right _ _)
      · exact h _ (List.mem_cons_of_mem _ ha'')

theorem pyMin_mem {l : List ℚ} (h : l ≠ []) : pyMin l ∈ l := by
  cases l with
  | nil => exact absurd rfl h
  | cons a as =>
    have : pyMin (a :: as) = as.foldl min a := by
      simp [pyMin]
    rw [this]
    exact foldl_min_mem as a

theorem pyMin_le {l : List ℚ} {a : ℚ} (ha : a ∈ l) : pyMin l ≤ a := by
  cases l with
  | nil => cases ha
  | cons b bs =>
    have : pyMin (b :: bs) = bs.foldl min b := by
      simp [pyMin]
    rw [this]
    exact foldl_min_le bs b a ha

theorem pyMinNat_mem {l : List ℕ} (h : l ≠ []) : pyMinNat l ∈ l := by
  cases l with
  | nil => exact absurd rfl h
  | cons a as =>
    have : pyMinNat (a :: as) = as.foldl min a := by
      simp [pyMinNat]
    rw [this]
    exact foldl_min_mem as a

theorem lookupV_isSome {p : PyDict} {key : String} (h : key ∈ dictKeys p) :
    ∃ v, lookupV p key = some v := by
  unfold lookupV
  obtain ⟨kv, hkv, rfl⟩ := List.mem_map.mp h
  have : (p.find? (fun kv' => decide (kv'.1 = kv.1))).isSome :=
    List.find?_isSome.mpr ⟨kv, hkv, by simp⟩
  obtain ⟨kv', hkv'⟩ := Option.isSome_iff_exists.mp this
  exact ⟨kv'.2, by rw [hkv']; rfl⟩

theorem dictGet_of_lookupV {p : PyDict} {key : String} {v : PVal}
    (h : lookupV p key = some v) : dictGet p key = .ok v := by
  unfold lookupV at h
  unfold dictGet
  cases hf : p.find? (fun kv => decide (kv.1 = key)) with
  | none => rw [hf] at h; cases h
  | some kv =>
    rw [hf] at h
    cases h
    rfl

theorem lookupV_mem {p : PyDict} {key : String} {v : PVal}
    (h : lookupV p key = some v) : ∃ kv ∈ p, kv.1 = key ∧ kv.2 = v := by
  unfold lookupV at h
  cases hf : p.find? (fun kv => decide (kv.1 = key)) with
  | none => rw [hf] at h; cases h
  | some kv =>
    rw [hf] at h
    cases h
    refine ⟨kv, List.mem_of_find?_eq_some hf, ?_, rfl⟩
    have := List.find?_some hf
    simpa using this

theorem collectE_map_ok {α β ε : Type} {f : α → Except ε β} {g : α → β} {l : List α}
    (h : ∀ a ∈ l, f a = .ok (g a)) : collectE f l = .ok (l.map g) := by
  induction l with
  | nil => rfl
  | cons a as ih =>
    have ha := h a (List.mem_cons_self a as)
    have has := ih (fun a' ha' => h a' (List.mem_cons_of_mem a ha'))
    simp only [collectE, ha, has]
    rfl

theorem filterMap_eq_map_of_some {α β : Type} {f : α → Option β} {g : α → β} {l : List α}
    (h : ∀ a ∈ l, f a = some (g a)) : l.filterMap f = l.map g := by
  induction l with
  | nil => rfl
  | cons a as ih =>
    rw [List.filterMap_cons, h a (List.mem_cons_self a as),
      ih (fun a' ha' => h a' (List.mem_cons_of_mem a ha')), List.map_cons]

theorem findIdx?_getD {l : List PyDict} {a : PyDict} (h : a ∈ l) :
    ∃ i, l.findIdx? (fun x => decide (x = a)) = some i ∧ i < l.length
      ∧ l.getD i [] = a := by
  induction l with
  | nil => cases h
  | cons b bs ih =>
    by_cases hba : b = a
    · subst hba
      exact ⟨0, by simp [List.findIdx?_cons], by simp, rfl⟩
    · have ha : a ∈ bs := by
        rcases List.mem_cons.mp h with h' | h'
        · exact absurd h'.symm hba
        · exact h'
      obtain ⟨i, hfind, hlt, hget⟩ := ih ha
      refine ⟨i + 1, ?_, by simpa using Nat.succ_lt_succ hlt, by simpa using hget⟩
      rw [List.findIdx?_cons]
      simp [hba, hfind]

theorem tiedParams_subset (cv : CvResults) : ∀ p ∈ tiedParams cv, p ∈ cv.params := by
  intro p hp
  unfold tiedParams at hp
  obtain ⟨pair, hpair, rfl⟩ := List.mem_map.mp hp
  exact (List.of_mem_zip (List.mem_of_mem_filter hpair)).2

theorem tiedParams_ne_nil {cv : CvResults}
    (hlen : cv.rank_test_score.length = cv.params.length)
    (hne : cv.rank_test_score ≠ []) : tiedParams cv ≠ [] := by
  have hmem : pyMinNat cv.rank_test_score ∈ cv.rank_test_score := pyMinNat_mem hne
  obtain ⟨i, hi, hget⟩ := List.mem_iff_getElem.mp hmem
  have hip : i < cv.params.length := by omega
  have hiz : i < (cv.rank_test_score.zip cv.params).length := by
    rw [List.length_zip]
    omega
  have hmemz : (cv.rank_test_score[i], cv.params[i]) ∈
      cv.rank_test_score.zip cv.params := by
    have hpair : (cv.rank_test_score.zip cv.params)[i] =
        (cv.rank_test_score[i], cv.params[i]) := List.getElem_zip
    rw [← hpair]
    exact List.getElem_mem hiz
  intro hcon
  unfold tiedParams at hcon
  rw [List.map_eq_nil_iff] at hcon
  have hall := List.filter_eq_nil_iff.mp hcon _ hmemz
  simp [hget] at hall

/-- Filtering index-value pairs by their value and keeping the indexed
element is filtering by the value function (the
`array[array_of_values == v]` numpy idiom used twice in
`get_best_index`). -/
theorem zip_filter_map_fst {α β : Type} [DecidableEq β] (l : List α) (g : α → β) (b : β) :
    ((l.zip (l.map g)).filter (fun p => decide (p.2 = b))).map (·.1)
      = l.filter (fun p => decide (g p = b)) := by
  have h1 : l.zip (l.map g) = l.map (fun a => (a, g a)) := by
    nth_rewrite 1 [show l = l.map id from (List.map_id l).symm]
    rw [List.zip_map']
    simp
  rw [h1, List.filter_map, List.map_map]
  simp only [Function.comp_def]
  simp

/-- When every tied configuration carries the selected-feature key, the
selected-feature narrowing keeps exactly the configurations whose value
equals `best_fs` (`None` when present, else the minimum). -/
theorem get_best_step2_eq (tied : List PyDict) (params_name : List String)
    (g : PyDict → PVal)
    (hfk : fsKey ∈ params_name)
    (hgv : ∀ p ∈ tied, lookupV p fsKey = some (g p)) :
    get_best_step2 tied params_name
      = .ok (tied.filter (fun p => decide (g p
          = (if (tied.map g).contains none then none
             else some (pyMin (tied.map g).reduceOption))))) := by
  unfold get_best_step2
  rw [if_pos hfk, collectE_map_ok (fun p hp => dictGet_of_lookupV (hgv p hp))]
  dsimp only
  rw [zip_filter_map_fst]

/-- When a complexity hyperparameter is chosen and every tied
configuration carries it with a numeric value, the complexity narrowing
keeps exactly the configurations attaining the minimal value. -/
theorem get_best_step3_cons_eq (tied2 : List PyDict) (key : String) (keys : List String)
    (g2 : PyDict → PVal) (q2 : PyDict → ℚ)
    (hg2 : ∀ p ∈ tied2, lookupV p key = some (g2 p))
    (hq2 : ∀ p ∈ tied2, g2 p = some (q2 p)) :
    get_best_step3 tied2 (key :: keys)
      = .ok (tied2.filter (fun p => decide (g2 p = some (pyMin (tied2.map q2))))) := by
  unfold get_best_step3
  dsimp only
  rw [collectE_map_ok (fun p hp => dictGet_of_lookupV (hg2 p hp))]
  dsimp only
  have hunwrap : collectE
      (fun v => match v with
        | some q => Except.ok q
        | none => Except.error PyErr.runtimeFault) (tied2.map g2)
      = .ok ((tied2.map g2).map (fun v => v.getD 0)) := by
    refine collectE_map_ok ?_
    intro v hv
    obtain ⟨p, hp, rfl⟩ := List.mem_map.mp hv
    rw [hq2 p hp]
    rfl
  rw [hunwrap]
  dsimp only
  rw [zip_filter_map_fst]
  have hqs : ((tied2.map g2).map (fun v => v.getD 0)) = tied2.map q2 := by
    rw [List.map_map]
    refine List.map_congr_left ?_
    intro p hp
    simp [hq2 p hp]
  rw [hqs]

/-- C5 amended: for well-formed inner results (uniform key sets, numeric
complexity values) whose tied-for-best-rank configurations all carry
`FeatureSelection__n_selected_features`, `get_best_index` succeeds and
the returned index belongs to a configuration whose selected-feature
value is `bestFsOf cv`: `None` whenever any tied configuration has
`None` — "select all" is preferred, the opposite of the claim — and
otherwise the smallest explicit count among the tied ones (the last two
conjuncts pin `bestFsOf` down as that case split, with the minimum
attained and below every tied explicit count). -/
theorem C5_get_best_index_amended (cv : CvResults)
    (hlen : cv.rank_test_score.length = cv.params.length)
    (hne : cv.rank_test_score ≠ [])
    (hkeys : ∀ p ∈ tiedParams cv, dictKeys p = dictKeys ((tiedParams cv).headD []))
    (hfs : ∀ p ∈ tiedParams cv, fsKey ∈ dictKeys p)
    (hnum : ∀ p ∈ tiedParams cv, ∀ kv ∈ p, kv.1 ∈ paramsOfInterest → ∃ q : ℚ, kv.2 = some q) :
    (∃ i, get_best_index cv = .ok i ∧ i < cv.params.length ∧
      lookupV (cv.params.getD i []) fsKey = some (bestFsOf cv))
    ∧ (none ∈ tiedFsVals cv → bestFsOf cv = none)
    ∧ (none ∉ tiedFsVals cv → ∃ m, bestFsOf cv = some m ∧ some m ∈ tiedFsVals cv
        ∧ ∀ q : ℚ, some q ∈ tiedFsVals cv → m ≤ q) := by
  have hgv : ∀ p ∈ tiedParams cv, lookupV p fsKey = some ((lookupV p fsKey).getD none) := by
    intro p hp
    obtain ⟨v, hv⟩ := lookupV_isSome (hfs p hp)
    simp [hv]
  have hvals : tiedFsVals cv = (tiedParams cv).map (fun p => (lookupV p fsKey).getD none) :=
    filterMap_eq_map_of_some (fun p hp => hgv p hp)
  have htne := tiedParams_ne_nil hlen hne
  obtain ⟨first, rest, heq⟩ : ∃ f r, tiedParams cv = f :: r := by
    rcases htp : tiedParams cv with _ | ⟨f, r⟩
    · exact absurd htp htne
    · exact ⟨f, r, rfl⟩
  have hmin_none : none ∈ tiedFsVals cv → bestFsOf cv = none := by
    intro hmem
    rw [bestFsOf, if_pos (by simpa using hmem)]
  have hmin_some : none ∉ tiedFsVals cv → ∃ m, bestFsOf cv = some m
      ∧ some m ∈ tiedFsVals cv ∧ ∀ q : ℚ, some q ∈ tiedFsVals cv → m ≤ q := by
    intro hnmem
    have hcon : ¬ ((tiedFsVals cv).contains none = true) := by simpa using hnmem
    rw [bestFsOf, if_neg hcon]
    have hro : ∀ a : ℚ, a ∈ (tiedFsVals cv).reduceOption ↔ some a ∈ tiedFsVals cv := by
      intro a
      exact List.reduceOption_mem_iff
    have hv0 : (lookupV first fsKey).getD none ∈ tiedFsVals cv := by
      rw [hvals, heq]
      exact List.mem_map_of_mem _ (List.mem_cons_self _ _)
    obtain ⟨q0, hq0⟩ : ∃ q : ℚ, (lookupV first fsKey).getD none = some q := by
      rcases hgf : (lookupV first fsKey).getD none with _ | q
      · rw [hgf] at hv0
        exact absurd hv0 hnmem
      · exact ⟨q, rfl⟩
    have hq0' : q0 ∈ (tiedFsVals cv).reduceOption := (hro q0).mpr (hq0 ▸ hv0)
    have hrone : (tiedFsVals cv).reduceOption ≠ [] := List.ne_nil_of_mem hq0'
    refine ⟨_, rfl, ?_, ?_⟩
    · exact (hro _).mp (pyMin_mem hrone)
    · intro q hq
      exact pyMin_le ((hro q).mpr hq)
  refine ⟨?_, hmin_none, hmin_some⟩
  have hfirstmem : first ∈ tiedParams cv := by
    rw [heq]
    exact List.mem_cons_self _ _
  have hfk : fsKey ∈ dictKeys first := hfs first hfirstmem
  have hbesteq : (if ((tiedParams cv).map (fun p => (lookupV p fsKey).getD none)).contains none
        then (none : PVal)
      else some (pyMin ((tiedParams cv).map
        (fun p => (lookupV p fsKey).getD none)).reduceOption)) = bestFsOf cv := by
    rw [bestFsOf, hvals]
  have hstep2 : get_best_step2 (first :: rest) (dictKeys first)
      = .ok ((tiedParams cv).filter
          (fun p => decide ((lookupV p fsKey).getD none = bestFsOf cv))) := by
    rw [← heq, get_best_step2_eq (tiedParams cv) (dictKeys first)
      (fun p => (lookupV p fsKey).getD none) hfk hgv, hbesteq]
  set tied2 := (tiedParams cv).filter
    (fun p => decide ((lookupV p fsKey).getD none = bestFsOf cv)) with htied2def
  have htied2sub : ∀ p ∈ tied2, p ∈ tiedParams cv := fun p hp => List.mem_of_mem_filter hp
  have htied2fs : ∀ p ∈ tied2, (lookupV p fsKey).getD none = bestFsOf cv := by
    intro p hp
    simpa using List.of_mem_filter hp
  have htied2ne : tied2 ≠ [] := by
    rcases hcn : (tiedFsVals cv).contains none with _ | _
    · have hnmem : none ∉ tiedFsVals cv := by
        intro hmem
        rw [show ((tiedFsVals cv).contains none) = true from by simpa using hmem] at hcn
        cases hcn
      obtain ⟨m, hbm, hmm, _⟩ := hmin_some hnmem
      rw [hvals] at hmm
      obtain ⟨p, hp, hgp⟩ := List.mem_map.mp hmm
      have hpm : p ∈ tied2 := List.mem_filter.mpr ⟨hp, by simp [hgp, hbm]⟩
      exact List.ne_nil_of_mem hpm
    · have hmem : none ∈ tiedFsVals cv := by simpa using hcn
      have hbn := hmin_none hmem
      rw [hvals] at hmem
      obtain ⟨p, hp, hgp⟩ := List.mem_map.mp hmem
      have hpm : p ∈ tied2 := List.mem_filter.mpr ⟨hp, by simp [hgp, hbn]⟩
      exact List.ne_nil_of_mem hpm
  have hfinal : ∀ b : PyDict, b ∈ tied2 →
      ∀ i, cv.params.findIdx? (fun p => decide (p = b)) = some i → i < cv.params.length →
      cv.params.getD i [] = b →
      (i < cv.params.length ∧ lookupV (cv.params.getD i []) fsKey = some (bestFsOf cv)) := by
    intro b hb i _ hilt hgetd
    refine ⟨hilt, ?_⟩
    rw [hgetd, hgv b (htied2sub b hb), htied2fs b hb]
  rcases hpc : ((dictKeys first).filter (fun s => containsSub s.data "classifier".data)).filter
      (fun s => decide (s ∈ paramsOfInterest)) with _ | ⟨key, keys⟩
  · obtain ⟨b, br, hb⟩ : ∃ b r, tied2 = b :: r := by
      rcases ht : tied2 with _ | ⟨b, r⟩
      · exact absurd ht htied2ne
      · exact ⟨b, r, rfl⟩
    have hbmem : b ∈ cv.params :=
      tiedParams_subset cv b (htied2sub b (hb ▸ List.mem_cons_self _ _))
    obtain ⟨i, hfind, hilt, hgetd⟩ := findIdx?_getD hbmem
    obtain ⟨hilt', hlook⟩ := hfinal b (hb ▸ List.mem_cons_self _ _) i hfind hilt hgetd
    refine ⟨i, ?_, hilt', hlook⟩
    unfold get_best_index
    rw [if_neg (by simpa [List.isEmpty_iff] using hne)]
    split
    · rename_i h0
      rw [heq] at h0
      exact absurd h0 (List.cons_ne_nil _ _)
    · rename_i f r h0
      rw [heq] at h0
      injection h0 with h1 h2
      subst h1
      subst h2
      dsimp only
      rw [hstep2]
      dsimp only
      rw [hpc]
      rw [show get_best_step3 tied2 [] = .ok tied2 from rfl]
      dsimp only
      rw [hb]
      dsimp only
      rw [hfind]
  · have hkeymem : key ∈ ((dictKeys first).filter
        (fun s => containsSub s.data "classifier".data)).filter
        (fun s => decide (s ∈ paramsOfInterest)) := by
      rw [hpc]
      exact List.mem_cons_self _ _
    have hkey1 : key ∈ dictKeys first :=
      List.mem_of_mem_filter (List.mem_of_mem_filter hkeymem)
    have hkeyI : key ∈ paramsOfInterest := by
      simpa using List.of_mem_filter hkeymem
    have hg2v : ∀ p ∈ tied2, lookupV p key = some ((lookupV p key).getD none) := by
      intro p hp
      have hksame : dictKeys p = dictKeys first := by
        have h' := hkeys p (htied2sub p hp)
        rw [heq] at h'
        simpa using h'
      obtain ⟨v, hv⟩ := lookupV_isSome (show key ∈ dictKeys p from hksame ▸ hkey1)
      simp [hv]
    have hq2v : ∀ p ∈ tied2, (lookupV p key).getD none
        = some (((lookupV p key).getD none).getD 0) := by
      intro p hp
      obtain ⟨kv, hkv, hkvk, hkvv⟩ := lookupV_mem (hg2v p hp)
      obtain ⟨q, hq⟩ := hnum p (htied2sub p hp) kv hkv (hkvk ▸ hkeyI)
      rw [← hkvv, hq]
      rfl
    have hstep3 : get_best_step3 tied2 (key :: keys)
        = .ok (tied2.filter (fun p => decide ((lookupV p key).getD none
            = some (pyMin (tied2.map (fun p => ((lookupV p key).getD none).getD 0)))))) :=
      get_best_step3_cons_eq tied2 key keys (fun p => (lookupV p key).getD none)
        (fun p => ((lookupV p key).getD none).getD 0) hg2v hq2v
    set tied3 := tied2.filter (fun p => decide ((lookupV p key).getD none
      = some (pyMin (tied2.map (fun p => ((lookupV p key).getD none).getD 0))))) with htied3def
    have htied3ne : tied3 ≠ [] := by
      have hne2 : tied2.map (fun p => ((lookupV p key).getD none).getD 0) ≠ [] := by
        intro hcon
        exact htied2ne (List.map_eq_nil_iff.mp hcon)
      have hmm := pyMin_mem hne2
      obtain ⟨p, hp, hqp⟩ := List.mem_map.mp hmm
      have hfilt : p ∈ tied3 := by
        refine List.mem_filter.mpr ⟨hp, ?_⟩
        rw [hq2v p hp, hqp]
        simp
      exact List.ne_nil_of_mem hfilt
    obtain ⟨b, br, hb⟩ : ∃ b r, tied3 = b :: r := by
      rcases ht : tied3 with _ | ⟨b, r⟩
      · exact absurd ht htied3ne
      · exact ⟨b, r, rfl⟩
    have hbt2 : b ∈ tied2 := List.mem_of_mem_filter (hb ▸ List.mem_cons_self _ _)
    have hbmem : b ∈ cv.params := tiedParams_subset cv b (htied2sub b hbt2)
    obtain ⟨i, hfind, hilt, hgetd⟩ := findIdx?_getD hbmem
    obtain ⟨hilt', hlook⟩ := hfinal b hbt2 i hfind hilt hgetd
    refine ⟨i, ?_, hilt', hlook⟩
    unfold get_best_index
    rw [if_neg (by simpa [List.isEmpty_iff] using hne)]
    split
    · rename_i h0
      rw [heq] at h0
      exact absurd h0 (List.cons_ne_nil _ _)
    · rename_i f r h0
      rw [heq] at h0
      injection h0 with h1 h2
      subst h1
      subst h2
      dsimp only
      rw [hstep2]
      dsimp only
      rw [hpc]
      rw [hstep3]
      dsimp only
      rw [hb]
      dsimp only
      rw [hfind]

/-- C5 counterexample: two configurations tied for the best rank, one
carrying `None` and one the explicit count 5.  The claim requires the
returned index to belong to the explicit-count configuration (index 1,
`None` being "worse than any explicit count"), but `get_best_index`
returns index 0, whose selected-feature value is `None`. -/
theorem C5_get_best_index_prefers_none :
    get_best_index ⟨[1, 1], [[(fsKey, none)], [(fsKey, some 5)]]⟩ = .ok 0
    ∧ lookupV [(fsKey, none)] fsKey = some none
    ∧ lookupV [(fsKey, some 5)] fsKey = some (some 5) := by
  refine ⟨by decide, by decide, by decide⟩

/-- C5 amended, witness: the claim's own example — a tie differing only
in the selected-feature count, 10 vs 5 — where the returned index is
that of the configuration with 5. -/
theorem C5_get_best_index_amended_sample :
    (∃ i, get_best_index ⟨[1, 1], [[(fsKey, some 10)], [(fsKey, some 5)]]⟩ = .ok i
      ∧ i < (⟨[1, 1], [[(fsKey, some 10)], [(fsKey, some 5)]]⟩ : CvResults).params.length
      ∧ lookupV ((⟨[1, 1], [[(fsKey, some 10)], [(fsKey, some 5)]]⟩ : CvResults).params.getD i [])
          fsKey = some (bestFsOf ⟨[1, 1], [[(fsKey, some 10)], [(fsKey, some 5)]]⟩))
    ∧ (none ∈ tiedFsVals ⟨[1, 1], [[(fsKey, some 10)], [(fsKey, some 5)]]⟩ →
        bestFsOf ⟨[1, 1], [[(fsKey, some 10)], [(fsKey, some 5)]]⟩ = none)
    ∧ (none ∉ tiedFsVals ⟨[1, 1], [[(fsKey, some 10)], [(fsKey, some 5)]]⟩ →
        ∃ m, bestFsOf ⟨[1, 1], [[(fsKey, some 10)], [(fsKey, some 5)]]⟩ = some m
          ∧ some m ∈ tiedFsVals ⟨[1, 1], [[(fsKey, some 10)], [(fsKey, some 5)]]⟩
          ∧ ∀ q : ℚ, some q ∈ tiedFsVals ⟨[1, 1], [[(fsKey, some 10)], [(fsKey, some 5)]]⟩ →
              m ≤ q) :=
  by
  have hd : ∀ p ∈ tiedParams
      (⟨[1, 1], [[(fsKey, some 10)], [(fsKey, some 5)]]⟩ : CvResults),
      ∀ kv ∈ p, kv.2 = some 10 ∨ kv.2 = some 5 := by decide
  exact C5_get_best_index_amended ⟨[1, 1], [[(fsKey, some 10)], [(fsKey, some 5)]]⟩
    (by decide) (by decide) (by decide) (by decide)
    (fun p hp kv hkv _ => (hd p hp kv hkv).elim (fun h => ⟨10, h⟩) (fun h => ⟨5, h⟩))

/-- C4: the code's value on the spec's example input. -/
theorem C4_format_feature_name_example_value :
    format_feature_name "original_occurrence_matrix_Correlation" = some "GLCM__Correlation" := by
  decide

/-- C8 counterexample: `format_feature_name` does not accept every string;
on `"original_"` the rewrite steps leave the empty string and the final
`feature_name[-1]` access fails (`IndexError`), modelled as `none`. -/
theorem C8_format_feature_name_fails_on_empty_reduction :
    format_feature_name "original_" = none := by
  decide

/-- C8 amended: `format_feature_name` terminates on every string and
returns a string exactly when the rewritten name is nonempty; it fails
(with `IndexError` at the trailing-underscore check) exactly when the
rewrite steps reduce the input to the empty string. -/
theorem C8_format_feature_name_total_unless_empty (s : String) :
    (format_feature_name s).isSome ↔ format_feature_name_core s.data ≠ [] := by
  unfold format_feature_name
  rcases h : format_feature_name_core s.data with _ | ⟨c, cs⟩
  · simp
  · simp only [List.isEmpty_cons, Bool.false_eq_true, if_false]
    constructor
    · intro _
      simp
    · intro _
      split <;> simp

/-- C8 amended, witness: on `"original_firstorder.3D._mean"` the rewritten
name is nonempty and a value is returned. -/
theorem C8_format_feature_name_total_unless_empty_sample :
    (format_feature_name "original_firstorder.3D._mean").isSome :=
  (C8_format_feature_name_total_unless_empty "original_firstorder.3D._mean").mpr (by decide)

/-- C1: on the spec's own scenario (`method='wlcx_score'`,
`n_selected_features=3`, 10 features, 2 balanced classes) `fit` succeeds
and retains exactly features 1, 3, 5 — verifiably the three with the
strictly greatest Kruskal-Wallis statistics, so the support mask is as
claimed — but `transform` after the successful fit, and therefore
`fit_transform`, raise `NotFittedError` instead of returning the
restricted matrix: sklearn's `check_is_fitted` returns `None` on a fitted
estimator, so `if check_is_fitted(self):` always falls into the `else`
branch that raises.  The last conjunct shows the value the specification
describes (the matrix restricted to the retained columns), which the code
never returns. -/
theorem C1_transform_after_fit_raises_notFitted :
    FilterFeatureSelection.fit wlcxConfig wlcx_score (fun _ _ => []) [] wlcxExampleX wlcxExampleY
        = .ok ⟨10, [1, 3, 5]⟩
    ∧ wlcx_score wlcxExampleX wlcxExampleY = .ok wlcxExampleScores
    ∧ (([1, 3, 5] : List ℕ).all (fun i =>
        ([0, 2, 4, 6, 7, 8, 9] : List ℕ).all (fun j =>
          decide (wlcxExampleScores.getD j 0 < wlcxExampleScores.getD i 0)))) = true
    ∧ FilterFeatureSelection.get_support_mask ⟨10, [1, 3, 5]⟩
        = [false, true, false, true, false, true, false, false, false, false]
    ∧ FeatureSelection.transform (some ⟨10, [1, 3, 5]⟩) wlcxExampleX = .error .notFitted
    ∧ FeatureSelection.fit_transform wlcxConfig wlcx_score (fun _ _ => []) [] wlcxExampleX wlcxExampleY
        = .error .notFitted
    ∧ transform_as_specified ⟨10, [1, 3, 5]⟩ wlcxExampleX
        = [[1, 1, 1], [2, 2, 2], [3, 4, 5], [4, 3, 3], [5, 5, 4], [6, 6, 6]] := by
  refine ⟨by decide, by decide, by decide, by decide, by decide, by decide, by decide⟩

/-- C2 counterexample: `'D'` belongs to the claim's six-element accepted
set, but `get_dataset` has no `'D'` branch and rejects it with the
catch-all `raise ValueError` (InvalidInput). -/
theorem C2_get_dataset_rejects_D :
    get_dataset id id "D" [] [] [] "MComBat" = .error .invalidInput := by
  decide

/-- C2 amended: `get_dataset` accepts exactly the four ids
`'S'`, `'S+D'`, `'S+D+OR'`, `'S+OR'` (returning a single-entry mapping
from the id to a table) and fails with InvalidInput on every other id —
in particular `'D'` and `'OR'` are rejected, not accepted. -/
theorem C2_get_dataset_accepts_exactly_four_ids
    (mc cb : Mat → Mat) (d : String) (tS tD tOR : Mat) (harmonization : String) :
    (d ∈ (["S", "S+D", "S+D+OR", "S+OR"] : List String) →
      ∃ t, get_dataset mc cb d tS tD tOR harmonization = .ok (d, t))
    ∧ (d ∉ (["S", "S+D", "S+D+OR", "S+OR"] : List String) →
      get_dataset mc cb d tS tD tOR harmonization = .error .invalidInput) := by
  constructor
  · intro hd
    simp only [List.mem_cons, List.mem_singleton, List.not_mem_nil, or_false] at hd
    rcases hd with h | h | h | h <;> subst h <;> exact ⟨_, rfl⟩
  · intro hd
    simp only [List.mem_cons, List.mem_singleton, List.not_mem_nil, or_false] at hd
    push_neg at hd
    obtain ⟨h1, h2, h3, h4⟩ := hd
    simp [get_dataset, h1, h2, h3, h4]

/-- C2 amended, witness: `'S'` is accepted with a single-entry result and
`'X'` is rejected. -/
theorem C2_get_dataset_accepts_exactly_four_ids_sample :
    (∃ t, get_dataset id id "S" [[1]] [] [] "MComBat" = .ok ("S", t))
    ∧ get_dataset id id "X" [] [] [] "MComBat" = .error .invalidInput :=
  ⟨(C2_get_dataset_accepts_exactly_four_ids id id "S" [[1]] [] [] "MComBat").1 (by decide),
   (C2_get_dataset_accepts_exactly_four_ids id id "X" [] [] [] "MComBat").2 (by decide)⟩

/-- C3: with three distinct batch values, the multi-group branch of
`before_after_comparison` does not partition feature 0 by batch label —
it evaluates `batch == i` with the feature index `i = 0` and repeats that
one subset per label, so the reported statistic (hence p-value) is that
of three identical groups (H = 0, p = 1) instead of the Kruskal-Wallis
test over the three batch groups (H = 32/7 here); since the chi-square
p-value is strictly decreasing in the statistic, the reported p-value is
not the claimed one. -/
theorem C3_before_after_multigroup_uses_feature_index :
    nDistinct bacExampleBatch = 3
    ∧ bac_code_groups bacExampleX bacExampleBatch 0 = [[1, 2], [1, 2], [1, 2]]
    ∧ bac_code_groups bacExampleX bacExampleBatch 0
        ≠ bac_batchlabel_groups bacExampleX bacExampleBatch 0
    ∧ before_after_multigroup_stat bacExampleX bacExampleBatch 0 = .ok 0
    ∧ kruskal (bac_batchlabel_groups bacExampleX bacExampleBatch 0) = .ok (32/7) := by
  refine ⟨by decide, by decide, by decide, by decide, by decide⟩

/-- C6: for every call that reaches the reference-batch scenario of the
claim (2-D table, at least two distinct batch values), `neuroComBat`
fails with the pandas `TypeError` raised by
`pd.DataFrame(batch, columns='batch')` — a string where pandas requires a
collection — regardless of `ref_batch`; the reference-batch InvalidInput
validation on the following line is unreachable. -/
theorem C6_neuroComBat_fails_before_ref_batch_validation
    (X : Mat) (batch : List String) (ref_batch : Option String)
    (hX : isTwoD X = true) (hb : 2 ≤ nDistinct batch) :
    neuroComBat X batch ref_batch = .error .libraryError := by
  have h1 : ¬ nDistinct batch ≤ 1 := by omega
  simp only [neuroComBat, hX, h1]
  rfl

/-- C6 witness: the claim's own scenario — a two-valued batch and a
`ref_batch` absent from it — produces the pandas error, not the
reference-batch InvalidInput. -/
theorem C6_neuroComBat_fails_before_ref_batch_validation_sample :
    neuroComBat [[1], [2]] ["a", "b"] (some "c") = .error .libraryError :=
  C6_neuroComBat_fails_before_ref_batch_validation [[1], [2]] ["a", "b"] (some "c")
    (by decide) (by decide)

/-- C7 counterexample: the claim says any letter-casing is accepted, but
the membership test is exact-case and `'MAX'` is rejected with
InvalidInput. -/
theorem C7_target_rejects_uppercase :
    local_intensity_features_target "MAX" = .error .invalidInput := by
  decide

/-- C7 amended: the target selector is validated against the exact-case
list `['min', 'max', 'minimum', 'maximum']`: precisely those four strings
are accepted and every other value (`'MAX'`, `'Minimum'`, `'median'`, …)
fails with InvalidInput. -/
theorem C7_target_exact_case (target : String) :
    (∃ b, local_intensity_features_target target = .ok b)
      ↔ target ∈ (["min", "max", "minimum", "maximum"] : List String) := by
  unfold local_intensity_features_target
  by_cases h : target ∈ (["min", "max", "minimum", "maximum"] : List String) <;>
    simp [h]

/-- C7 amended, witness: `'min'` is accepted. -/
theorem C7_target_exact_case_sample :
    ∃ b, local_intensity_features_target "min" = .ok b :=
  (C7_target_exact_case "min").mpr (by decide)

/-- C9: calling `transform` on an unfitted selector fails with NotFitted
for every 2-D input matrix (sklearn's `check_is_fitted` raises
`NotFittedError` inside the `if` condition). -/
theorem C9_transform_unfitted_raises_notFitted (X : Mat) (hX : isTwoD X = true) :
    FeatureSelection.transform none X = .error .notFitted := by
  simp only [FeatureSelection.transform, hX]
  rfl

/-- C9 witness. -/
theorem C9_transform_unfitted_raises_notFitted_sample :
    FeatureSelection.transform none [[1], [2]] = .error .notFitted :=
  C9_transform_unfitted_raises_notFitted [[1], [2]] (by decide)
